import Mathlib

/-!
# Verification of the youtube-ninja core: download queue, retry executor,
# filename sanitization and the download orchestration

Shallow embedding of the relevant parts of `src/queue_manager.py` and
`src/downloader.py`.  Python strings are modelled as `String` (or `List Char`
where character-level reasoning is needed); the `deque` as a `List`; callback
invocations are recorded in an explicit event log.
-/

namespace YoutubeNinja

/-! ## Retry executor (`YouTubeDownloader._retry_download`, downloader.py 51-85)

`MAX_RETRIES` and `RETRY_DELAYS` are the class constants of downloader.py
lines 28-29.  One call of the wrapped `download_func` has three possible
outcomes, mirroring the Python control flow: a truthy return, a falsy return,
or a raised exception (carrying its message `str(e)`). -/

def MAX_RETRIES : Nat := 3

def RETRY_DELAYS : List Nat := [2, 5, 10]

/-- Outcome of one invocation of the wrapped download function, as
distinguished by the `try`/`except` in `_retry_download`. -/
inductive AttemptOutcome where
  | ok                  -- `result` truthy: return True
  | falseRet            -- `result` falsy, no exception: loop continues
  | exc (msg : String)  -- exception raised with message `str(e)`
deriving DecidableEq

/-- Membership of the pattern in the haystack as a contiguous substring,
character-list version of Python's `in` operator on strings. -/
def charsHavePrefix : List Char → List Char → Bool
  | [], _ => true
  | _ :: _, [] => false
  | a :: as, b :: bs => a == b && charsHavePrefix as bs

def charsContain (sub : List Char) : List Char → Bool
  | [] => sub.isEmpty
  | c :: rest => charsHavePrefix sub (c :: rest) || charsContain sub rest

/-- `"cancelled" in str(e).lower()` (downloader.py line 74). -/
def msgSignalsCancel (msg : String) : Bool :=
  charsContain "cancelled".data (msg.data.map Char.toLower)

/-- An attempt outcome that is a non-cancellation exception: the only
failure mode that triggers the backoff sleep. -/
def isNCExc : AttemptOutcome → Bool
  | .exc m => !msgSignalsCancel m
  | _ => false

/-- Observable trace of one `_retry_download` call: the returned boolean,
how many times `download_func` was invoked, and the list of `time.sleep`
durations in order. -/
structure RetryTrace where
  success : Bool
  attempts : Nat
  sleeps : List Nat
deriving DecidableEq

/-- The loop body of `_retry_download` (downloader.py 64-85).
`flag i` is the value the instance field `_cancel_requested` has when the
check at line 65 runs before attempt `i` (the field can be set concurrently
by `cancel_download`); `op i` is the outcome of the `i`-th invocation of
`download_func`.  `rem` is the number of loop iterations left out of
`MAX_RETRIES`; falling out of the loop returns `False` (line 85). -/
def retryAux (flag : Nat → Bool) (op : Nat → AttemptOutcome) :
    Nat → Nat → RetryTrace
  | _, 0 => ⟨false, 0, []⟩
  | attempt, rem + 1 =>
    if flag attempt then ⟨false, 0, []⟩
    else
      match op attempt with
      | .ok => ⟨true, 1, []⟩
      | .falseRet =>
          let r := retryAux flag op (attempt + 1) rem
          ⟨r.success, r.attempts + 1, r.sleeps⟩
      | .exc msg =>
          if msgSignalsCancel msg then ⟨false, 1, []⟩
          else if attempt < MAX_RETRIES - 1 then
            let r := retryAux flag op (attempt + 1) rem
            ⟨r.success, r.attempts + 1, RETRY_DELAYS.getD attempt 0 :: r.sleeps⟩
          else
            let r := retryAux flag op (attempt + 1) rem
            ⟨r.success, r.attempts + 1, r.sleeps⟩

/-- `YouTubeDownloader._retry_download`, as a function of the cancellation
flag history and the per-attempt outcomes. -/
def retry_download (flag : Nat → Bool) (op : Nat → AttemptOutcome) : RetryTrace :=
  retryAux flag op 0 MAX_RETRIES

/-! ## Filename sanitization (`YouTubeDownloader._sanitize_filename`,
downloader.py 399-407).  Strings are lists of characters here so that the
per-character `replace` loop is reasoned about directly. -/

def INVALID_CHARS : List Char := ['<', '>', ':', '"', '/', '\\', '|', '?', '*']

/-- Python `filename.replace(char, '')`: every occurrence of the single
character is removed. -/
def removeChar (s : List Char) (c : Char) : List Char :=
  s.filter (fun x => x ≠ c)

/-- Python `str.strip()` on a character list: drop leading and trailing
whitespace. -/
def stripChars (s : List Char) : List Char :=
  ((s.dropWhile Char.isWhitespace).reverse.dropWhile Char.isWhitespace).reverse

/-- `YouTubeDownloader._sanitize_filename`: the `for char in invalid_chars`
loop of removals, then `[:200].strip()`. -/
def sanitize_filename (filename : List Char) : List Char :=
  stripChars ((INVALID_CHARS.foldl removeChar filename).take 200)

/-! ## Download queue (`queue_manager.py`)

The `QueueItem` dataclass (lines 11-21); the `video_info` dict is modelled
as an association list of strings.  The `deque` is a `List` (append at the
tail, pop at the head).  Invocations of the registered `on_next` /
`on_queue_empty` callbacks are recorded in an event log returned alongside
the new state. -/

structure QueueItem where
  url : String
  video_info : List (String × String) := []
  download_video : Bool := true
  download_audio : Bool := true
  video_quality : String := "1080"
  audio_quality : String := "0"
  playlist_name : Option String := none
  playlist_position : Option String := none
deriving DecidableEq

/-- The mutable state of `DownloadQueue` (lines 27-32). -/
structure DownloadQueue where
  queue : List QueueItem
  current : Option QueueItem
  is_downloading : Bool
deriving DecidableEq

/-- `DownloadQueue.__init__` (lines 27-32). -/
def DownloadQueue.init : DownloadQueue := ⟨[], none, false⟩

/-- One callback invocation made by the queue. -/
inductive QEvent where
  | onNext (item : QueueItem)
  | onQueueEmpty
deriving DecidableEq

/-- `pending_count` property (lines 44-47). -/
def DownloadQueue.pending_count (s : DownloadQueue) : Nat :=
  s.queue.length

/-- `total_count` property (lines 49-52). -/
def DownloadQueue.total_count (s : DownloadQueue) : Nat :=
  s.queue.length + (if s.current.isSome then 1 else 0)

/-- `DownloadQueue._process_next` (lines 105-124): pop the head into
`_current` and fire `on_next`, or clear the current slot and fire
`on_queue_empty`. -/
def DownloadQueue.process_next (s : DownloadQueue) :
    DownloadQueue × List QEvent :=
  match s.queue with
  | item :: rest => (⟨rest, some item, true⟩, [.onNext item])
  | [] => (⟨[], none, false⟩, [.onQueueEmpty])

/-- `DownloadQueue.add` (lines 63-79): append, remember the position
`len(queue) - 1`, and advance if not currently downloading.  Returns
(new state, events fired, returned position). -/
def DownloadQueue.add (s : DownloadQueue) (item : QueueItem) :
    DownloadQueue × List QEvent × Nat :=
  let s1 : DownloadQueue := { s with queue := s.queue ++ [item] }
  let position := s1.queue.length - 1
  if s.is_downloading then (s1, [], position)
  else
    let (s2, evs) := s1.process_next
    (s2, evs, position)

/-- `DownloadQueue.add_url` (lines 81-103): builds the item, then `add`. -/
def DownloadQueue.add_url (s : DownloadQueue) (url : String)
    (video_info : List (String × String)) : DownloadQueue × List QEvent × Nat :=
  s.add { url := url, video_info := video_info }

/-- `DownloadQueue.complete_current` (lines 126-130). -/
def DownloadQueue.complete_current (s : DownloadQueue) :
    DownloadQueue × List QEvent :=
  DownloadQueue.process_next { s with is_downloading := false, current := none }

/-- `DownloadQueue.cancel_current` (lines 132-136): same transition. -/
def DownloadQueue.cancel_current (s : DownloadQueue) :
    DownloadQueue × List QEvent :=
  DownloadQueue.process_next { s with is_downloading := false, current := none }

/-- `DownloadQueue.clear` (lines 138-140). -/
def DownloadQueue.clear (s : DownloadQueue) : DownloadQueue :=
  { s with queue := [] }

/-- `DownloadQueue.remove` (lines 142-146): drop pending items with the
given url; return whether anything was dropped. -/
def DownloadQueue.remove (s : DownloadQueue) (url : String) :
    DownloadQueue × Bool :=
  let q := s.queue.filter (fun item => item.url ≠ url)
  ({ s with queue := q }, decide (q.length < s.queue.length))

/-- States reachable from a fresh `DownloadQueue` by the public operations
(and the internal advance, which add/complete/cancel call). -/
inductive Reachable : DownloadQueue → Prop where
  | init : Reachable DownloadQueue.init
  | add (s : DownloadQueue) (item : QueueItem) :
      Reachable s → Reachable (s.add item).1
  | add_url (s : DownloadQueue) (url : String)
      (info : List (String × String)) :
      Reachable s → Reachable (s.add_url url info).1
  | process_next (s : DownloadQueue) :
      Reachable s → Reachable s.process_next.1
  | complete_current (s : DownloadQueue) :
      Reachable s → Reachable s.complete_current.1
  | cancel_current (s : DownloadQueue) :
      Reachable s → Reachable s.cancel_current.1
  | clear (s : DownloadQueue) : Reachable s → Reachable s.clear
  | remove (s : DownloadQueue) (url : String) :
      Reachable s → Reachable (s.remove url).1

/-- Run a list of `add`s, concatenating the events fired. -/
def runAdds (s : DownloadQueue) : List QueueItem → DownloadQueue × List QEvent
  | [] => (s, [])
  | item :: rest =>
      let (s1, evs, _) := s.add item
      let (s2, evs2) := runAdds s1 rest
      (s2, evs ++ evs2)

/-- Run `n` successive `complete_current` calls, concatenating events. -/
def runCompletes (s : DownloadQueue) : Nat → DownloadQueue × List QEvent
  | 0 => (s, [])
  | n + 1 =>
      let (s1, evs) := s.complete_current
      let (s2, evs2) := runCompletes s1 n
      (s2, evs ++ evs2)

/-- The items delivered to `on_next`, in order, within an event log. -/
def onNextTrace : List QEvent → List QueueItem
  | [] => []
  | .onNext item :: rest => item :: onNextTrace rest
  | .onQueueEmpty :: rest => onNextTrace rest

/-- Number of `on_queue_empty` invocations in an event log. -/
def emptyCount : List QEvent → Nat
  | [] => 0
  | .onNext _ :: rest => emptyCount rest
  | .onQueueEmpty :: rest => 1 + emptyCount rest

/-! ### Reentrant stub: a DownloadEngine that completes immediately

For the queue-drain scenario the registered `on_next` callback calls
`complete_current` as soon as it receives the item.  Inside
`_process_next` the callback invocation (line 115) then reenters
`complete_current`, which calls `_process_next` again; when the inner call
returns, the outer `_process_next` has nothing left to do, so the inner
state stands.  The recursion consumes the queue head by head. -/

def processNextImm : List QueueItem → DownloadQueue × List QEvent
  | [] => (⟨[], none, false⟩, [.onQueueEmpty])
  | item :: rest =>
      -- pop `item`, fire on_next; the stub's complete_current resets the
      -- flags and recurses into _process_next on the remaining queue
      let (s, evs) := processNextImm rest
      (s, .onNext item :: evs)

/-- `add` when the registered `on_next` immediately calls
`complete_current`. -/
def addImm (s : DownloadQueue) (item : QueueItem) :
    DownloadQueue × List QEvent × Nat :=
  let q := s.queue ++ [item]
  let position := q.length - 1
  if s.is_downloading then ({ s with queue := q }, [], position)
  else
    let (s2, evs) := processNextImm q
    (s2, evs, position)

/-! ## Download orchestration (`YouTubeDownloader.download_video`,
downloader.py 141-193)

The two `_retry_download` calls and the metadata fetch are abstracted by
their outcomes (`audioResult`, `videoResult`, `info`); what the model keeps
is the control flow around the `_cancel_requested` field: the reset at line
169, and the two reads at lines 180 and 187.  `cancelDuring n` tells whether
an external `cancel_download` call has set the flag by the time of the
`n`-th read (reads are monotone: once set, the flag stays set until the next
`download_video` entry). -/

structure VideoInfo where
  title : List Char
  uploader : List Char := []
  duration : Nat := 0
deriving DecidableEq

/-- Result dict `{'video': ..., 'audio': ...}` plus a record of which
sub-downloads were attempted (i.e. which `_retry_download` calls ran). -/
structure DVOutcome where
  video : Bool
  audio : Bool
  audio_attempted : Bool
  video_attempted : Bool
deriving DecidableEq

/-- `YouTubeDownloader.download_video`.  `pre_cancel_requested` is the value
of `self._cancel_requested` on entry (line 169 overwrites it);
`audioResult` / `videoResult` are the booleans the two `_retry_download`
calls would return if made. -/
def download_video (pre_cancel_requested : Bool) (info : Option VideoInfo)
    (want_video want_audio : Bool) (cancelDuring : Nat → Bool)
    (audioResult videoResult : Bool) : DVOutcome :=
  -- line 169: self._cancel_requested = False
  let _ := pre_cancel_requested
  let cancel0 := false
  match info with
  | none => ⟨false, false, false, false⟩   -- lines 173-175
  | some _ =>
    -- line 180: if download_audio and not self._cancel_requested
    let cancelAtAudio := cancel0 || cancelDuring 0
    let audioRan := want_audio && !cancelAtAudio
    let audioRes := audioRan && audioResult
    -- line 187: if download_video and not self._cancel_requested
    let cancelAtVideo := cancelAtAudio || cancelDuring 1
    let videoRan := want_video && !cancelAtVideo
    let videoRes := videoRan && videoResult
    ⟨videoRes, audioRes, audioRan, videoRan⟩

/-- Concrete items used in witnesses and counterexamples. -/
def itemA : QueueItem := { url := "https://youtu.be/a" }

def itemB : QueueItem := { url := "https://youtu.be/b" }

def itemC : QueueItem := { url := "https://youtu.be/c" }

/-- An attempt that fails without signalling cancellation: either a
non-cancellation exception or a falsy return. -/
def failsNonCancel (o : AttemptOutcome) : Prop :=
  isNCExc o = true ∨ o = .falseRet

instance (o : AttemptOutcome) : Decidable (failsNonCancel o) := by
  unfold failsNonCancel; infer_instance

/-- The backoff sleeps incurred by the failed attempts among `0..n-1`: one
sleep of `RETRY_DELAYS[i]` for each attempt `i` that raised a
non-cancellation exception. -/
def pastSleeps (op : Nat → AttemptOutcome) (n : Nat) : List Nat :=
  ((List.range n).filter (fun i => isNCExc (op i))).map
    (fun i => RETRY_DELAYS.getD i 0)

lemma isNCExc_eq_true_iff (o : AttemptOutcome) :
    isNCExc o = true ↔ ∃ m, o = .exc m ∧ msgSignalsCancel m = false := by
  cases o with
  | ok => simp [isNCExc]
  | falseRet => simp [isNCExc]
  | exc m => simp [isNCExc]

/-- A failing non-cancellation attempt hands control to the next loop
iteration, adding one to the attempt count. -/
lemma retryAux_fail_step (flag : Nat → Bool) (op : Nat → AttemptOutcome)
    (attempt rem : Nat) (hf : flag attempt = false)
    (h : failsNonCancel (op attempt)) :
    (retryAux flag op attempt (rem + 1)).success =
      (retryAux flag op (attempt + 1) rem).success ∧
    (retryAux flag op attempt (rem + 1)).attempts =
      (retryAux flag op (attempt + 1) rem).attempts + 1 := by
  rcases h with h | h
  · rw [isNCExc_eq_true_iff] at h
    obtain ⟨m, hm, hc⟩ := h
    by_cases hlt : attempt < MAX_RETRIES - 1 <;>
      simp [retryAux, hf, hm, hc, hlt]
  · simp [retryAux, hf, h]

/-- When the flag is down and at least one iteration remains, the wrapped
function is invoked at least once. -/
lemma retryAux_attempts_pos (flag : Nat → Bool) (op : Nat → AttemptOutcome)
    (attempt rem : Nat) (hf : flag attempt = false) :
    1 ≤ (retryAux flag op attempt (rem + 1)).attempts := by
  rcases e : op attempt with _ | _ | m
  · simp [retryAux, hf, e]
  · simp [retryAux, hf, e]
  · by_cases hc : msgSignalsCancel m <;>
      by_cases hlt : attempt < MAX_RETRIES - 1 <;>
      simp [retryAux, hf, e, hc, hlt]

lemma retryAux_base (flag : Nat → Bool) (op : Nat → AttemptOutcome) :
    retryAux flag op 3 0 = ⟨false, 0, []⟩ := rfl

lemma retryAux_ok (flag : Nat → Bool) (op : Nat → AttemptOutcome)
    (attempt rem : Nat) (hf : flag attempt = false) (h : op attempt = .ok) :
    retryAux flag op attempt (rem + 1) = ⟨true, 1, []⟩ := by
  simp [retryAux, hf, h]

/-- **C4.** With the cancellation flag never set and every attempt before
`k` failing without a cancellation message: if `k = MAX_RETRIES` (all
attempts fail) exactly 3 attempts are made and the call returns failure;
if the operation first succeeds at attempt index `k < MAX_RETRIES`, exactly
`k + 1` attempts are made and the call returns success. -/
theorem retry_attempt_bound (flag : Nat → Bool) (op : Nat → AttemptOutcome)
    (k : Nat) (hflag : ∀ i, flag i = false)
    (hfail : ∀ i, i < k → failsNonCancel (op i)) :
    (k = MAX_RETRIES →
      (retry_download flag op).success = false ∧
      (retry_download flag op).attempts = MAX_RETRIES)
    ∧ (k < MAX_RETRIES → op k = .ok →
      (retry_download flag op).success = true ∧
      (retry_download flag op).attempts = k + 1) := by
  constructor
  · rintro rfl
    have h0 := retryAux_fail_step flag op 0 2 (hflag 0)
      (hfail 0 (by norm_num [MAX_RETRIES]))
    have h1 := retryAux_fail_step flag op 1 1 (hflag 1)
      (hfail 1 (by norm_num [MAX_RETRIES]))
    have h2 := retryAux_fail_step flag op 2 0 (hflag 2)
      (hfail 2 (by norm_num [MAX_RETRIES]))
    have hb := retryAux_base flag op
    norm_num at h0 h1 h2
    rw [hb] at h2
    unfold retry_download MAX_RETRIES
    refine ⟨?_, ?_⟩
    · rw [h0.1, h1.1, h2.1]
    · rw [h0.2, h1.2, h2.2]
  · intro hk hok
    unfold MAX_RETRIES at hk
    interval_cases k
    · have : retryAux flag op 0 3 = ⟨true, 1, []⟩ :=
        retryAux_ok flag op 0 2 (hflag 0) hok
      simp [retry_download, MAX_RETRIES, this]
    · have h0 := retryAux_fail_step flag op 0 2 (hflag 0)
        (hfail 0 (by norm_num))
      have h1 : retryAux flag op 1 2 = ⟨true, 1, []⟩ :=
        retryAux_ok flag op 1 1 (hflag 1) hok
      norm_num at h0
      rw [h1] at h0
      unfold retry_download MAX_RETRIES
      exact ⟨h0.1, h0.2⟩
    · have h0 := retryAux_fail_step flag op 0 2 (hflag 0)
        (hfail 0 (by norm_num))
      have h1 := retryAux_fail_step flag op 1 1 (hflag 1)
        (hfail 1 (by norm_num))
      have h2 : retryAux flag op 2 1 = ⟨true, 1, []⟩ :=
        retryAux_ok flag op 2 0 (hflag 2) hok
      norm_num at h0 h1
      rw [h2] at h1
      unfold retry_download MAX_RETRIES
      refine ⟨?_, ?_⟩
      · rw [h0.1, h1.1]
      · rw [h0.2, h1.2]

/-- Witness for `retry_attempt_bound`: for the operation that always raises
a plain network error, 3 attempts are made and the call fails; for the one
that succeeds on its second attempt, 2 attempts are made and it succeeds. -/
theorem retry_attempt_bound_witness :
    ((retry_download (fun _ => false) (fun _ => .exc "network error")).success
        = false ∧
      (retry_download (fun _ => false)
        (fun _ => .exc "network error")).attempts = MAX_RETRIES)
    ∧ ((retry_download (fun _ => false)
        (fun i => if i = 0 then .exc "network error" else .ok)).success
          = true ∧
      (retry_download (fun _ => false)
        (fun i => if i = 0 then .exc "network error" else .ok)).attempts
          = 2) :=
  have hne : isNCExc (.exc "network error") = true := by decide
  ⟨(retry_attempt_bound (fun _ => false) (fun _ => .exc "network error")
      MAX_RETRIES (fun _ => rfl)
      (fun _ _ => Or.inl hne)).1 rfl,
   (retry_attempt_bound (fun _ => false)
      (fun i => if i = 0 then .exc "network error" else .ok)
      1 (fun _ => rfl)
      (fun i hi => by
        interval_cases i
        exact Or.inl hne)).2
      (by norm_num [MAX_RETRIES]) (by decide)⟩

/-! One-step unfolding equations for `retryAux`, one per control path of
the loop body; `rem` stays symbolic so the inner call remains folded. -/

lemma retryAux_eq_false (flag : Nat → Bool) (op : Nat → AttemptOutcome)
    (attempt rem : Nat) (hf : flag attempt = false)
    (e : op attempt = .falseRet) :
    retryAux flag op attempt (rem + 1) =
      ⟨(retryAux flag op (attempt + 1) rem).success,
       (retryAux flag op (attempt + 1) rem).attempts + 1,
       (retryAux flag op (attempt + 1) rem).sleeps⟩ := by
  simp [retryAux, hf, e]

lemma retryAux_eq_excC (flag : Nat → Bool) (op : Nat → AttemptOutcome)
    (attempt rem : Nat) (m : String) (hf : flag attempt = false)
    (e : op attempt = .exc m) (hc : msgSignalsCancel m = true) :
    retryAux flag op attempt (rem + 1) = ⟨false, 1, []⟩ := by
  simp [retryAux, hf, e, hc]

lemma retryAux_eq_excNC_lt (flag : Nat → Bool) (op : Nat → AttemptOutcome)
    (attempt rem : Nat) (m : String) (hf : flag attempt = false)
    (e : op attempt = .exc m) (hc : msgSignalsCancel m = false)
    (hlt : attempt < MAX_RETRIES - 1) :
    retryAux flag op attempt (rem + 1) =
      ⟨(retryAux flag op (attempt + 1) rem).success,
       (retryAux flag op (attempt + 1) rem).attempts + 1,
       RETRY_DELAYS.getD attempt 0 ::
         (retryAux flag op (attempt + 1) rem).sleeps⟩ := by
  simp [retryAux, hf, e, hc, hlt]

lemma retryAux_eq_excNC_last (flag : Nat → Bool) (op : Nat → AttemptOutcome)
    (attempt rem : Nat) (m : String) (hf : flag attempt = false)
    (e : op attempt = .exc m) (hc : msgSignalsCancel m = false)
    (hge : ¬ attempt < MAX_RETRIES - 1) :
    retryAux flag op attempt (rem + 1) =
      ⟨(retryAux flag op (attempt + 1) rem).success,
       (retryAux flag op (attempt + 1) rem).attempts + 1,
       (retryAux flag op (attempt + 1) rem).sleeps⟩ := by
  simp [retryAux, hf, e, hc, hge]

lemma retryAux_eq_flagSet (flag : Nat → Bool) (op : Nat → AttemptOutcome)
    (attempt rem : Nat) (hf : flag attempt = true) :
    retryAux flag op attempt (rem + 1) = ⟨false, 0, []⟩ := by
  simp [retryAux, hf]

/-- The last loop iteration never sleeps and makes exactly one attempt
when reached with the flag down. -/
lemma retryAux_two (flag : Nat → Bool) (op : Nat → AttemptOutcome)
    (hf : flag 2 = false) :
    (retryAux flag op 2 1).sleeps = [] ∧
    (retryAux flag op 2 1).attempts = 1 := by
  rcases e : op 2 with _ | _ | m
  · have h := retryAux_ok flag op 2 0 hf e
    norm_num at h
    rw [h]
    exact ⟨rfl, rfl⟩
  · have h := retryAux_eq_false flag op 2 0 hf e
    norm_num at h
    rw [h, retryAux_base]
    exact ⟨rfl, rfl⟩
  · by_cases hc : msgSignalsCancel m
    · have h := retryAux_eq_excC flag op 2 0 m hf e hc
      norm_num at h
      rw [h]
      exact ⟨rfl, rfl⟩
    · have h := retryAux_eq_excNC_last flag op 2 0 m hf e
        (by simpa using hc) (by norm_num [MAX_RETRIES])
      norm_num at h
      rw [h, retryAux_base]
      exact ⟨rfl, rfl⟩

/-- Sleep characterization from the second iteration on (flag down). -/
lemma retryAux_one (flag : Nat → Bool) (op : Nat → AttemptOutcome)
    (hf1 : flag 1 = false) (hf2 : flag 2 = false) :
    (retryAux flag op 1 2).sleeps =
      ((List.range' 1 ((retryAux flag op 1 2).attempts - 1)).filter
        (fun i => isNCExc (op i))).map (fun i => RETRY_DELAYS.getD i 0) := by
  obtain ⟨hs2, ha2⟩ := retryAux_two flag op hf2
  rcases e : op 1 with _ | _ | m
  · have h := retryAux_ok flag op 1 1 hf1 e
    norm_num at h
    rw [h]
    simp
  · have h := retryAux_eq_false flag op 1 1 hf1 e
    norm_num at h
    rw [h]
    simp [hs2, ha2, List.filter_cons, isNCExc, e]
  · by_cases hc : msgSignalsCancel m
    · have h := retryAux_eq_excC flag op 1 1 m hf1 e hc
      norm_num at h
      rw [h]
      simp
    · have h := retryAux_eq_excNC_lt flag op 1 1 m hf1 e
        (by simpa using hc) (by norm_num [MAX_RETRIES])
      norm_num at h
      rw [h]
      simp [hs2, ha2, List.filter_cons, isNCExc, e, hc]

/-- With the flag never set, the sleeps of a retry run are exactly one
`RETRY_DELAYS[i]` entry for each non-final attempt `i` that raised a
non-cancellation exception. -/
lemma retryAux_sleeps_char (flag : Nat → Bool) (op : Nat → AttemptOutcome)
    (hflag : ∀ i, flag i = false) :
    (retryAux flag op 0 3).sleeps =
      ((List.range' 0 ((retryAux flag op 0 3).attempts - 1)).filter
        (fun i => isNCExc (op i))).map (fun i => RETRY_DELAYS.getD i 0) := by
  have h1 := retryAux_one flag op (hflag 1) (hflag 2)
  have hpos : 1 ≤ (retryAux flag op 1 (1 + 1)).attempts :=
    retryAux_attempts_pos flag op 1 1 (hflag 1)
  norm_num at hpos
  rcases e : op 0 with _ | _ | m
  · have h := retryAux_ok flag op 0 2 (hflag 0) e
    norm_num at h
    rw [h]
    simp
  · have h := retryAux_eq_false flag op 0 2 (hflag 0) e
    norm_num at h
    rw [h]
    simp only [Nat.add_sub_cancel]
    rw [show (retryAux flag op 1 2).attempts =
        ((retryAux flag op 1 2).attempts - 1) + 1 from by omega,
      List.range'_succ, List.filter_cons]
    simp [isNCExc, e, h1]
  · by_cases hc : msgSignalsCancel m
    · have h := retryAux_eq_excC flag op 0 2 m (hflag 0) e hc
      norm_num at h
      rw [h]
      simp
    · have h := retryAux_eq_excNC_lt flag op 0 2 m (hflag 0) e
        (by simpa using hc) (by norm_num [MAX_RETRIES])
      norm_num at h
      rw [h]
      simp only [Nat.add_sub_cancel]
      rw [show (retryAux flag op 1 2).attempts =
          ((retryAux flag op 1 2).attempts - 1) + 1 from by omega,
        List.range'_succ, List.filter_cons]
      simp [isNCExc, e, hc, h1]

/-- A non-cancellation failure below the last loop slot: one attempt
consumed, a sleep recorded exactly when the failure was an exception. -/
lemma retryAux_fail_step_full (flag : Nat → Bool) (op : Nat → AttemptOutcome)
    (attempt rem : Nat) (hf : flag attempt = false)
    (hlt : attempt < MAX_RETRIES - 1) (h : failsNonCancel (op attempt)) :
    retryAux flag op attempt (rem + 1) =
      ⟨(retryAux flag op (attempt + 1) rem).success,
       (retryAux flag op (attempt + 1) rem).attempts + 1,
       (if isNCExc (op attempt) then [RETRY_DELAYS.getD attempt 0] else [])
         ++ (retryAux flag op (attempt + 1) rem).sleeps⟩ := by
  rcases h with h | h
  · obtain ⟨m, hm, hc⟩ := (isNCExc_eq_true_iff _).mp h
    rw [retryAux_eq_excNC_lt flag op attempt rem m hf hm hc hlt]
    simp [h]
  · rw [retryAux_eq_false flag op attempt rem hf h]
    simp [isNCExc, h]

/-- **C5 counterexample.** An operation that fails every attempt by
returning a falsy value: three attempts happen, attempts remain between the
failures, yet no backoff sleep at all occurs — the sleep happens only in
the exception branch of the loop. -/
theorem retry_no_sleep_on_false_return :
    retry_download (fun _ => false) (fun _ => .falseRet) =
      ⟨false, 3, []⟩ := by
  decide

/-- **C5 (amended).** With cancellation never requested, the executor
sleeps exactly once per non-final attempt that failed with a
non-cancellation exception, for `RETRY_DELAYS[i]` seconds (2 after attempt
1, 5 after attempt 2); an attempt failing by an explicit falsy return is
followed by the next attempt with no sleep, and no sleep follows the final
attempt. -/
theorem retry_backoff_schedule (flag : Nat → Bool)
    (op : Nat → AttemptOutcome) (hflag : ∀ i, flag i = false) :
    (retry_download flag op).sleeps =
      pastSleeps op ((retry_download flag op).attempts - 1) := by
  simp only [retry_download, MAX_RETRIES, pastSleeps, List.range_eq_range']
  exact retryAux_sleeps_char flag op hflag

/-- Witness for `retry_backoff_schedule`: the always-raising operation
sleeps 2 then 5 seconds and nothing after its final attempt. -/
theorem retry_backoff_schedule_witness :
    (retry_download (fun _ => false)
      (fun _ => .exc "network error")).sleeps = [2, 5] := by
  have h := retry_backoff_schedule (fun _ => false)
    (fun _ => .exc "network error") (fun _ => rfl)
  rw [h]
  decide

/-- **C6 counterexample.** Attempt 1 fails with a plain error, the backoff
sleep of 2 seconds runs, and only then does the flag check before attempt 2
observe the cancellation: the executor returns failure with no attempt 2 or
3, but a backoff sleep *was* incurred. -/
theorem retry_cancel_after_sleep :
    retry_download (fun i => decide (1 ≤ i))
      (fun _ => .exc "HTTP Error 500") = ⟨false, 1, [2]⟩ := by
  decide

/-- **C6 (amended).** With every attempt before `k` failing without a
cancellation message: (a) if the flag is observed set before attempt
`k + 1` begins, the executor returns failure at once — no further attempt
and no further sleep — keeping only the sleeps already incurred by the
earlier exception failures (in particular the sleep that followed a
non-cancellation exception at attempt `k` has already happened); (b) if
attempt `k + 1` fails with a message containing "cancelled", all remaining
retries are short-circuited: failure is returned after exactly `k + 1`
attempts with no further sleep. -/
theorem retry_cancel_shortcircuit (flag : Nat → Bool)
    (op : Nat → AttemptOutcome) (k : Nat) (hk : k < MAX_RETRIES)
    (hfail : ∀ i, i < k → failsNonCancel (op i)) :
    ((∀ i, i < k → flag i = false) → flag k = true →
      retry_download flag op = ⟨false, k, pastSleeps op k⟩)
    ∧ (∀ m, (∀ i, i ≤ k → flag i = false) → op k = .exc m →
        msgSignalsCancel m = true →
      retry_download flag op = ⟨false, k + 1, pastSleeps op k⟩) := by
  unfold MAX_RETRIES at hk
  interval_cases k
  · constructor
    · intro _ hf0
      have h := retryAux_eq_flagSet flag op 0 2 hf0
      norm_num at h
      simp [retry_download, MAX_RETRIES, h, pastSleeps]
    · intro m hf e hc
      have h := retryAux_eq_excC flag op 0 2 m (hf 0 (by norm_num)) e hc
      norm_num at h
      simp [retry_download, MAX_RETRIES, h, pastSleeps]
  · have hf01 := hfail 0 (by norm_num)
    constructor
    · intro hflt hf1
      have h0 := retryAux_fail_step_full flag op 0 2 (hflt 0 (by norm_num))
        (by norm_num [MAX_RETRIES]) hf01
      have h1 := retryAux_eq_flagSet flag op 1 1 hf1
      norm_num at h0 h1
      rw [h1] at h0
      rcases hne : isNCExc (op 0) <;>
        simp [retry_download, MAX_RETRIES, h0, pastSleeps, show List.range 1 = [0] from rfl,
          List.filter_cons, hne]
    · intro m hf e hc
      have h0 := retryAux_fail_step_full flag op 0 2 (hf 0 (by norm_num))
        (by norm_num [MAX_RETRIES]) hf01
      have h1 := retryAux_eq_excC flag op 1 1 m (hf 1 (by norm_num)) e hc
      norm_num at h0 h1
      rw [h1] at h0
      rcases hne : isNCExc (op 0) <;>
        simp [retry_download, MAX_RETRIES, h0, pastSleeps, show List.range 1 = [0] from rfl,
          List.filter_cons, hne]
  · have hf01 := hfail 0 (by norm_num)
    have hf11 := hfail 1 (by norm_num)
    constructor
    · intro hflt hf2
      have h0 := retryAux_fail_step_full flag op 0 2 (hflt 0 (by norm_num))
        (by norm_num [MAX_RETRIES]) hf01
      have h1 := retryAux_fail_step_full flag op 1 1 (hflt 1 (by norm_num))
        (by norm_num [MAX_RETRIES]) hf11
      have h2 := retryAux_eq_flagSet flag op 2 0 hf2
      norm_num at h0 h1 h2
      rw [h2] at h1
      rw [h1] at h0
      rcases hne0 : isNCExc (op 0) <;> rcases hne1 : isNCExc (op 1) <;>
        simp [retry_download, MAX_RETRIES, h0, pastSleeps,
          show List.range 2 = [0, 1] from rfl, List.filter_cons, hne0, hne1]
    · intro m hf e hc
      have h0 := retryAux_fail_step_full flag op 0 2 (hf 0 (by norm_num))
        (by norm_num [MAX_RETRIES]) hf01
      have h1 := retryAux_fail_step_full flag op 1 1 (hf 1 (by norm_num))
        (by norm_num [MAX_RETRIES]) hf11
      have h2 := retryAux_eq_excC flag op 2 0 m (hf 2 (by norm_num)) e hc
      norm_num at h0 h1 h2
      rw [h2] at h1
      rw [h1] at h0
      rcases hne0 : isNCExc (op 0) <;> rcases hne1 : isNCExc (op 1) <;>
        simp [retry_download, MAX_RETRIES, h0, pastSleeps,
          show List.range 2 = [0, 1] from rfl, List.filter_cons, hne0, hne1]

/-- Witness for `retry_cancel_shortcircuit`: cancellation observed before
attempt 2 after a falsy-return failure of attempt 1 — immediate failure,
one attempt, no sleep at all; and a "cancelled" exception on attempt 1 —
immediate failure, one attempt, no sleep. -/
theorem retry_cancel_shortcircuit_witness :
    retry_download (fun i => decide (1 ≤ i)) (fun _ => .falseRet) =
      ⟨false, 1, pastSleeps (fun _ => .falseRet) 1⟩ ∧
    retry_download (fun _ => false) (fun _ => .exc "Download cancelled") =
      ⟨false, 1, pastSleeps (fun _ => .exc "Download cancelled") 0⟩ :=
  ⟨(retry_cancel_shortcircuit (fun i => decide (1 ≤ i))
      (fun _ => .falseRet) 1 (by norm_num [MAX_RETRIES])
      (fun i _ => Or.inr rfl)).1
      (fun i hi => by interval_cases i; rfl) rfl,
   (retry_cancel_shortcircuit (fun _ => false)
      (fun _ => .exc "Download cancelled") 0 (by norm_num [MAX_RETRIES])
      (fun i hi => absurd hi (by omega))).2
      "Download cancelled" (fun _ _ => rfl) rfl (by decide)⟩

/-! ### Sanitization lemmas -/

lemma mem_removeChar {c d : Char} {s : List Char} :
    c ∈ removeChar s d ↔ c ∈ s ∧ c ≠ d := by
  simp [removeChar]

lemma stripChars_sublist (s : List Char) : (stripChars s).Sublist s := by
  have h1 : ((s.dropWhile Char.isWhitespace).reverse.dropWhile
      Char.isWhitespace).Sublist (s.dropWhile Char.isWhitespace).reverse :=
    (List.dropWhile_suffix _).sublist
  have h2 := h1.reverse
  rw [List.reverse_reverse] at h2
  exact h2.trans (List.dropWhile_suffix _).sublist

lemma stripChars_length_le (s : List Char) :
    (stripChars s).length ≤ s.length :=
  (stripChars_sublist s).length_le

/-- Trimming is idempotent: a trimmed string has no leading or trailing
whitespace left. -/
lemma stripChars_idem (s : List Char) :
    stripChars (stripChars s) = stripChars s := by
  have hy : (s.dropWhile Char.isWhitespace).dropWhile Char.isWhitespace =
      s.dropWhile Char.isWhitespace := List.dropWhile_idempotent _ _
  have hxy : stripChars s =
      (s.dropWhile Char.isWhitespace).rdropWhile Char.isWhitespace := rfl
  have hpre : (stripChars s) <+: (s.dropWhile Char.isWhitespace) := by
    rw [hxy]; exact List.rdropWhile_prefix _ _
  have hstepA : (stripChars s).dropWhile Char.isWhitespace = stripChars s := by
    rw [List.dropWhile_eq_self_iff]
    intro hl
    have hlen : 0 < (s.dropWhile Char.isWhitespace).length :=
      lt_of_lt_of_le hl hpre.length_le
    have hget := hpre.getElem (n := 0) hl
    rw [List.get_eq_getElem, hget]
    have := List.dropWhile_eq_self_iff.mp hy hlen
    rwa [List.get_eq_getElem] at this
  have hstepB : (stripChars s).rdropWhile Char.isWhitespace = stripChars s := by
    rw [hxy]
    exact List.rdropWhile_idempotent _ _
  show ((stripChars s).dropWhile Char.isWhitespace).rdropWhile
      Char.isWhitespace = stripChars s
  rw [hstepA, hstepB]

lemma mem_clean {t : List Char} {c : Char}
    (h : c ∈ INVALID_CHARS.foldl removeChar t) : c ∉ INVALID_CHARS := by
  simp only [INVALID_CHARS, List.foldl_cons, List.foldl_nil] at h
  simp only [mem_removeChar] at h
  simp only [INVALID_CHARS, List.mem_cons, List.not_mem_nil, or_false]
  push_neg
  tauto

/-- **C7 counterexample.** The title `My: Video/Clip*?"<>|` sanitizes to
`My VideoClip`, not `My Video Clip`: the invalid characters are removed,
not replaced by spaces, so deleting the `/` glues `Video` and `Clip`
together. -/
theorem sanitize_example_no_space :
    sanitize_filename "My: Video/Clip*?\"<>|".data = "My VideoClip".data ∧
    "My VideoClip".data ≠ "My Video Clip".data := by
  constructor
  · decide
  · decide

set_option maxRecDepth 8192 in
/-- **C7 (amended).** For every title, `_sanitize_filename` removes every
occurrence of the characters `<>:"/\|?*`, truncates to at most 200
characters, and trims surrounding whitespace (trimming idempotent on the
result); the title `My: Video/Clip*?"<>|` sanitizes to `My VideoClip` with
no invalid characters remaining, and a 250-character title truncates to
200 characters. -/
theorem sanitize_filename_spec (t : List Char) :
    (sanitize_filename t).length ≤ 200 ∧
    (∀ c ∈ sanitize_filename t, c ∉ INVALID_CHARS) ∧
    stripChars (sanitize_filename t) = sanitize_filename t ∧
    sanitize_filename (List.replicate 250 'a') = List.replicate 200 'a' := by
  refine ⟨?_, ?_, ?_, ?_⟩
  · calc (sanitize_filename t).length
        ≤ ((INVALID_CHARS.foldl removeChar t).take 200).length :=
          stripChars_length_le _
      _ ≤ 200 := List.length_take_le _ _
  · intro c hc
    have h1 : c ∈ (INVALID_CHARS.foldl removeChar t).take 200 :=
      (stripChars_sublist _).subset hc
    exact mem_clean (List.take_subset _ _ h1)
  · exact stripChars_idem _
  · decide

/-- Witness for `sanitize_filename_spec`, at the concrete title of the
spec scenario and the character `M` of its output. -/
theorem sanitize_filename_spec_witness :
    (sanitize_filename "My: Video/Clip*?\"<>|".data).length ≤ 200 ∧
    'M' ∉ INVALID_CHARS :=
  ⟨(sanitize_filename_spec "My: Video/Clip*?\"<>|".data).1,
    (sanitize_filename_spec "My: Video/Clip*?\"<>|".data).2.1 'M' (by decide)⟩

/-! ### Queue lemmas -/

/-- After an internal advance, the flag and the current slot agree
unconditionally: both set (head popped) or both cleared (queue empty). -/
lemma process_next_inv (s : DownloadQueue) :
    (s.process_next.1.is_downloading = true ↔
      s.process_next.1.current.isSome = true) := by
  cases h : s.queue <;> simp [DownloadQueue.process_next, h]

lemma add_fst_inv (s : DownloadQueue) (item : QueueItem)
    (ih : s.is_downloading = true ↔ s.current.isSome = true) :
    ((s.add item).1.is_downloading = true ↔
      (s.add item).1.current.isSome = true) := by
  by_cases hd : s.is_downloading
  · simpa [DownloadQueue.add, hd] using ih
  · have h : (s.add item).1 =
        ({ s with queue := s.queue ++ [item] } : DownloadQueue).process_next.1 := by
      simp [DownloadQueue.add, hd]
    rw [h]
    exact process_next_inv _

/-- In every reachable state, `is_downloading` holds iff a current item is
present. -/
lemma inv_flag_current {s : DownloadQueue} (h : Reachable s) :
    s.is_downloading = true ↔ s.current.isSome = true := by
  induction h with
  | init => simp [DownloadQueue.init]
  | add s item _ ih => exact add_fst_inv s item ih
  | add_url s url info _ ih => exact add_fst_inv s _ ih
  | process_next s _ _ => exact process_next_inv s
  | complete_current s _ _ => exact process_next_inv _
  | cancel_current s _ _ => exact process_next_inv _
  | clear s _ ih => simpa [DownloadQueue.clear] using ih
  | remove s url _ ih => simpa [DownloadQueue.remove] using ih

/-- In every reachable state, an idle queue has no pending items: the
manager never sits idle while work is pending. -/
lemma inv_idle_empty {s : DownloadQueue} (h : Reachable s) :
    s.is_downloading = false → s.queue = [] := by
  induction h with
  | init => intro _; rfl
  | add s item _ ih =>
      by_cases hd : s.is_downloading
      · simp [DownloadQueue.add, hd]
      · have hq : s.queue = [] := ih (by simpa using hd)
        simp [DownloadQueue.add, hd, hq, DownloadQueue.process_next]
  | add_url s url info _ ih =>
      by_cases hd : s.is_downloading
      · simp [DownloadQueue.add_url, DownloadQueue.add, hd]
      · have hq : s.queue = [] := ih (by simpa using hd)
        simp [DownloadQueue.add_url, DownloadQueue.add, hd, hq,
          DownloadQueue.process_next]
  | process_next s _ _ =>
      cases hq : s.queue <;> simp [DownloadQueue.process_next, hq]
  | complete_current s _ _ =>
      cases hq : s.queue <;>
        simp [DownloadQueue.complete_current, DownloadQueue.process_next, hq]
  | cancel_current s _ _ =>
      cases hq : s.queue <;>
        simp [DownloadQueue.cancel_current, DownloadQueue.process_next, hq]
  | clear s _ _ => intro _; rfl
  | remove s url _ ih =>
      intro hd
      simp only [DownloadQueue.remove] at hd ⊢
      rw [ih hd]
      rfl

/-- **C1.** In every reachable `DownloadQueue` state (after construction
and after any sequence of add/add_url/advance/complete/cancel/remove/clear),
`is_downloading` is true iff a current item is present; and while
`is_downloading` holds and the current item has not been completed or
cancelled, `add` — the only event-producing operation available — fires no
callback at all, so `on_next` never fires for a second item. -/
theorem queue_single_flight (s : DownloadQueue) (h : Reachable s) :
    (s.is_downloading = true ↔ s.current.isSome = true) ∧
    (s.is_downloading = true → ∀ item, (s.add item).2.1 = []) := by
  refine ⟨inv_flag_current h, ?_⟩
  intro hd item
  simp [DownloadQueue.add, hd]

/-- Witness for `queue_single_flight`: the state reached by adding one item
to a fresh queue, which is downloading it. -/
theorem queue_single_flight_witness :
    ((DownloadQueue.init.add itemA).1.is_downloading = true ↔
      (DownloadQueue.init.add itemA).1.current.isSome = true) ∧
    ((DownloadQueue.init.add itemA).1.add itemB).2.1 = [] :=
  ⟨(queue_single_flight _ (Reachable.add _ itemA Reachable.init)).1,
   (queue_single_flight _ (Reachable.add _ itemA Reachable.init)).2
     (by decide) itemB⟩

/-- **C2 (failing input).** Add `itemA` to a fresh queue: it is dispatched
and stays current with an empty pending queue.  Adding `itemB` then
returns position 0 — yet fires no `on_next` for `itemB`, which waits
behind the still-downloading `itemA`: the code's "0 = will be downloaded
immediately" contract (queue_manager.py line 68) is violated. -/
theorem add_position_zero_without_dispatch :
    ((DownloadQueue.init.add itemA).1.add itemB).2.2 = 0 ∧
    ((DownloadQueue.init.add itemA).1.add itemB).2.1 = [] ∧
    (DownloadQueue.init.add itemA).1.is_downloading = true ∧
    ((DownloadQueue.init.add itemA).1.add itemB).1.current = some itemA := by
  exact ⟨rfl, rfl, rfl, rfl⟩

lemma runAdds_cons (s : DownloadQueue) (a : QueueItem)
    (rest : List QueueItem) :
    runAdds s (a :: rest) =
      ((runAdds (s.add a).1 rest).1,
        (s.add a).2.1 ++ (runAdds (s.add a).1 rest).2) := by
  simp [runAdds]

lemma runCompletes_succ (s : DownloadQueue) (n : Nat) :
    runCompletes s (n + 1) =
      ((runCompletes s.complete_current.1 n).1,
        s.complete_current.2 ++ (runCompletes s.complete_current.1 n).2) := by
  simp [runCompletes]

/-- Adds made while a download is in flight only append: no events. -/
lemma runAdds_downloading (s : DownloadQueue) (items : List QueueItem)
    (hd : s.is_downloading = true) :
    runAdds s items = ({ s with queue := s.queue ++ items }, []) := by
  induction items generalizing s with
  | nil => simp [runAdds]
  | cons a rest ih =>
      have h1 : s.add a =
          ({ s with queue := s.queue ++ [a] }, [], s.queue.length) := by
        simp [DownloadQueue.add, hd]
      rw [runAdds_cons, h1]
      rw [ih { s with queue := s.queue ++ [a] } hd]
      simp

/-- Draining a queue of `q` pending items plus a current one by repeated
`complete_current` dispatches the pending items in order, then signals
empty. -/
lemma runCompletes_drain (q : List QueueItem) (cur : Option QueueItem)
    (dl : Bool) :
    runCompletes ⟨q, cur, dl⟩ (q.length + 1) =
      (⟨[], none, false⟩, q.map QEvent.onNext ++ [QEvent.onQueueEmpty]) := by
  induction q generalizing cur dl with
  | nil =>
      simp [runCompletes, DownloadQueue.complete_current,
        DownloadQueue.process_next]
  | cons a rest ih =>
      have h1 : DownloadQueue.complete_current ⟨a :: rest, cur, dl⟩ =
          (⟨rest, some a, true⟩, [QEvent.onNext a]) := by
        simp [DownloadQueue.complete_current, DownloadQueue.process_next]
      rw [show ((a :: rest).length + 1) = (rest.length + 1) + 1 by simp,
        runCompletes_succ, h1]
      rw [ih (some a) true]
      simp

lemma onNextTrace_append (l1 l2 : List QEvent) :
    onNextTrace (l1 ++ l2) = onNextTrace l1 ++ onNextTrace l2 := by
  induction l1 with
  | nil => rfl
  | cons e rest ih => cases e <;> simp [onNextTrace, ih]

lemma onNextTrace_map (q : List QueueItem) :
    onNextTrace (q.map QEvent.onNext) = q := by
  induction q with
  | nil => rfl
  | cons a rest ih => simp [onNextTrace, ih]

/-- **C3.** Dispatch is FIFO: enqueue any list of items into a fresh queue
and complete each in turn — `on_next` receives exactly the enqueued items
in order.  And enqueuing `[a, b, c]`, removing `b` by url before it is
dispatched, then completing, dispatches `[a, c]`. -/
theorem fifo_dispatch (items : List QueueItem) (a b c : QueueItem)
    (hbc : b.url ≠ c.url) :
    onNextTrace ((runAdds DownloadQueue.init items).2 ++
        (runCompletes (runAdds DownloadQueue.init items).1 items.length).2)
      = items ∧
    onNextTrace ((runAdds DownloadQueue.init [a, b, c]).2 ++
        (runCompletes
          (((runAdds DownloadQueue.init [a, b, c]).1.remove b.url).1) 2).2)
      = [a, c] := by
  constructor
  · cases items with
    | nil => rfl
    | cons x rest =>
        have h1 : DownloadQueue.init.add x =
            (⟨[], some x, true⟩, [QEvent.onNext x], 0) := by
          simp [DownloadQueue.add, DownloadQueue.init,
            DownloadQueue.process_next]
        have h2 : runAdds DownloadQueue.init (x :: rest) =
            (⟨rest, some x, true⟩, [QEvent.onNext x]) := by
          rw [runAdds_cons, h1]
          rw [runAdds_downloading ⟨[], some x, true⟩ rest rfl]
          simp
        rw [h2]
        simp only [List.length_cons]
        rw [runCompletes_drain rest (some x) true]
        simp [onNextTrace_append, onNextTrace, onNextTrace_map]
  · have hcb : c.url ≠ b.url := Ne.symm hbc
    have h1 : DownloadQueue.init.add a =
        (⟨[], some a, true⟩, [QEvent.onNext a], 0) := by
      simp [DownloadQueue.add, DownloadQueue.init, DownloadQueue.process_next]
    have h2 : runAdds DownloadQueue.init [a, b, c] =
        (⟨[b, c], some a, true⟩, [QEvent.onNext a]) := by
      rw [runAdds_cons, h1]
      rw [runAdds_downloading ⟨[], some a, true⟩ [b, c] rfl]
      simp
    have h3 : ((⟨[b, c], some a, true⟩ : DownloadQueue).remove b.url).1 =
        ⟨[c], some a, true⟩ := by
      simp [DownloadQueue.remove, hcb]
    have h4 := runCompletes_drain [c] (some a) true
    norm_num at h4
    rw [h2, h3, h4]
    simp [onNextTrace_append, onNextTrace]

/-- Witness for `fifo_dispatch`: items `A, B` dispatch as `[A, B]`, and the
removal scenario on `A, B, C` dispatches `[A, C]`. -/
theorem fifo_dispatch_witness :
    onNextTrace ((runAdds DownloadQueue.init [itemA, itemB]).2 ++
        (runCompletes (runAdds DownloadQueue.init [itemA, itemB]).1 2).2)
      = [itemA, itemB] ∧
    onNextTrace ((runAdds DownloadQueue.init [itemA, itemB, itemC]).2 ++
        (runCompletes
          (((runAdds DownloadQueue.init
            [itemA, itemB, itemC]).1.remove itemB.url).1) 2).2)
      = [itemA, itemC] :=
  ⟨(fifo_dispatch [itemA, itemB] itemA itemB itemC (by decide)).1,
   (fifo_dispatch [itemA, itemB] itemA itemB itemC (by decide)).2⟩

/-- **C9 counterexample.** Enqueue three items against a stub that calls
`complete_current` the moment `on_next` delivers the item: each `add`
synchronously drains the queue before the next `add` runs, so
`on_queue_empty` fires after every item — three times, not once.
`pending_count` does end at 0. -/
theorem queue_drain_empty_fires_thrice :
    emptyCount ((addImm DownloadQueue.init itemA).2.1 ++
      ((addImm (addImm DownloadQueue.init itemA).1 itemB).2.1 ++
        (addImm (addImm (addImm DownloadQueue.init itemA).1 itemB).1
          itemC).2.1)) = 3 ∧
    (addImm (addImm (addImm DownloadQueue.init itemA).1 itemB).1
      itemC).1.pending_count = 0 := by
  exact ⟨rfl, rfl⟩

/-- **C9 (amended).** With the immediately-completing stub, each of the
three enqueues dispatches its item and then fires `on_queue_empty` once —
the full event sequence is onNext a, empty, onNext b, empty, onNext c,
empty (three `on_queue_empty` firings, one per item, not one overall) —
and afterwards `pending_count = 0`. -/
theorem queue_drain_per_item (a b c : QueueItem) :
    (addImm DownloadQueue.init a).2.1 ++
      ((addImm (addImm DownloadQueue.init a).1 b).2.1 ++
        (addImm (addImm (addImm DownloadQueue.init a).1 b).1 c).2.1) =
      [QEvent.onNext a, QEvent.onQueueEmpty, QEvent.onNext b,
        QEvent.onQueueEmpty, QEvent.onNext c, QEvent.onQueueEmpty] ∧
    (addImm (addImm (addImm DownloadQueue.init a).1 b).1
      c).1.pending_count = 0 ∧
    emptyCount ((addImm DownloadQueue.init a).2.1 ++
      ((addImm (addImm DownloadQueue.init a).1 b).2.1 ++
        (addImm (addImm (addImm DownloadQueue.init a).1 b).1 c).2.1)) = 3 := by
  refine ⟨?_, rfl, rfl⟩
  simp [addImm, processNextImm, DownloadQueue.init]

/-! ## Theorems about the download orchestration -/

/-- **C8.** With metadata resolved, both streams requested and cancellation
never observed during the run, both retry calls are made — an audio
failure does not prevent the video sub-download — and the result records
the two flags independently. -/
theorem download_result_independence (info : VideoInfo)
    (audioResult videoResult : Bool) (cancelDuring : Nat → Bool)
    (hnc : ∀ n, cancelDuring n = false) (pre : Bool) :
    download_video pre (some info) true true cancelDuring
        audioResult videoResult =
      ⟨videoResult, audioResult, true, true⟩ := by
  simp [download_video, hnc]

/-- Witness for `download_result_independence`: failing audio with
succeeding video yields video = true, audio = false, video attempted. -/
theorem download_result_independence_witness :
    download_video false (some ⟨"t".data, [], 0⟩) true true
        (fun _ => false) false true =
      ⟨true, false, true, true⟩ :=
  download_result_independence ⟨"t".data, [], 0⟩ false true
    (fun _ => false) (fun _ => rfl) false

/-- **C10.** `download_video` overwrites `_cancel_requested` with `False`
on entry (line 169), so its outcome never depends on the flag value the
instance carried into the call: a cancellation requested before the call
begins has no effect, and with no cancellation arriving after entry the
requested sub-downloads are attempted. -/
theorem download_video_ignores_prior_cancel (pre pre' : Bool)
    (info : Option VideoInfo) (want_video want_audio : Bool)
    (cancelDuring : Nat → Bool) (audioResult videoResult : Bool)
    (i : VideoInfo) :
    download_video pre info want_video want_audio cancelDuring
        audioResult videoResult =
      download_video pre' info want_video want_audio cancelDuring
        audioResult videoResult ∧
    (download_video true (some i) want_video want_audio (fun _ => false)
        audioResult videoResult).audio_attempted = want_audio ∧
    (download_video true (some i) want_video want_audio (fun _ => false)
        audioResult videoResult).video_attempted = want_video := by
  refine ⟨rfl, ?_, ?_⟩ <;> simp [download_video]

end YoutubeNinja
